import Mathlib

/-!
# Exercise tracker (`index.js`): the four routes over an explicit document store

The program is an Express application with four routes that read and write two
Mongoose collections, `User` and `Exercise`.  The embedding below follows
`index.js` route by route:

* the two collections are lists in insertion order (the store's natural order);
* every route handler is a function from the store, the request and the values
  the environment supplies during the request (the identifier generated for a
  new document, the clock) to the response and the next store;
* what the handlers ask of the JavaScript runtime and of the database driver
  (`Number`, `parseInt`, `new Date`, the local time zone, the cast of a string
  to an `ObjectId`, `limit` outside its documented range) is collected in
  `Platform`, and every general theorem holds for every platform;
* the parts of Mongoose and MongoDB the handlers rely on and whose behaviour is
  documented are written out: `required` validation, the cast of filter values,
  the unique index on `_id`, the `$gte`/`$lte` operators and `limit`.

Request fields are strings, numbers or absent (`Value`); nested objects, arrays,
booleans and `null` in a JSON body are outside the model.  The connection to the
store is assumed to be up, so the only failures are the ones the handlers'
own calls raise.
-/

namespace ExerciseTracker

/-! ## Values supplied by the runtime -/

/-- The 12-byte document identifier of the store, read as a natural number. -/
abbrev ObjectId := Nat

/-- A JavaScript `Date`: `none` is the invalid date, `some t` the time value `t`
in milliseconds since the epoch. -/
abbrev JsDate := Option Int

/-- A field of `req.body`: absent (`undefined`), a string or a number.  `ν` is the
type of the runtime's numbers; the handlers only pass them on. -/
inductive Value (ν : Type) where
  | undef
  | str (s : String)
  | num (n : ν)
deriving DecidableEq, Repr

/-- What the handlers use from the JavaScript runtime and the database driver
without fixing it themselves. -/
structure Platform (ν : Type) where
  /-- the cast of a route parameter to an `ObjectId`; `none` when the cast fails and
  Mongoose rejects the query with a `CastError` -/
  castObjectId : String → Option ObjectId
  /-- the conversion `Number(s)`; `none` stands for `NaN` -/
  toNumber : String → Option ν
  /-- the conversion `String(n)` of a number -/
  showNumber : ν → String
  /-- truthiness of a number (`false` for zero and `NaN`) -/
  truthyNumber : ν → Bool
  /-- the constructor `new Date(s)` on a string -/
  dateOfString : String → JsDate
  /-- the constructor `new Date(n)` on a number -/
  dateOfNumber : ν → JsDate
  /-- the function `parseInt(s)`; `none` stands for `NaN` -/
  parseInt : String → Option Int
  /-- offset of local time from UTC, in milliseconds, at a UTC time value -/
  localTZA : Int → Int
  /-- what `limit(n)` does outside `0 ≤ n ≤ 2^31`, where the store leaves it open
  or makes it depend on batch sizes: `none` the query fails, `some none` no cap,
  `some (some c)` at most `c` documents -/
  limitOutside : Option Int → Option (Option Nat)

/-! ## `Date.prototype.toDateString` -/

def msPerDay : Int := 86400000

def weekDayNames : List String := ["Sun", "Mon", "Tue", "Wed", "Thu", "Fri", "Sat"]

def monthNames : List String :=
  ["Jan", "Feb", "Mar", "Apr", "May", "Jun", "Jul", "Aug", "Sep", "Oct", "Nov", "Dec"]

/-- Decimal digits of `n`, padded with zeros on the left to at least `width`. -/
def zeroPad (width n : Nat) : String :=
  let digits := toString n
  String.mk (List.replicate (width - digits.length) '0') ++ digits

/-- Year, month (1 to 12) and day of the month of a day number counted from
1 January 1970, in the proleptic Gregorian calendar. -/
def civilFromDays (day : Int) : Int × Nat × Nat :=
  let z := day + 719468
  let era := z / 146097
  let doe := (z - era * 146097).toNat
  let yoe := (doe - doe / 1460 + doe / 36524 - doe / 146096) / 365
  let doy := doe - (365 * yoe + yoe / 4 - yoe / 100)
  let mp := (5 * doy + 2) / 153
  let d := doy - (153 * mp + 2) / 5 + 1
  let m := if mp < 10 then mp + 3 else mp - 9
  ((yoe : Int) + era * 400 + (if m ≤ 2 then 1 else 0), m, d)

/-- Day number counted from 1 January 1970 of a calendar date. -/
def daysFromCivil (year : Int) (month day : Nat) : Int :=
  let y := if month ≤ 2 then year - 1 else year
  let era := y / 400
  let yoe := (y - era * 400).toNat
  let mp := if month > 2 then month - 3 else month + 9
  let doy := (153 * mp + 2) / 5 + day - 1
  let doe := yoe * 365 + yoe / 4 - yoe / 100 + doy
  era * 146097 + (doe : Int) - 719468

/-- The method `toDateString()` of a valid date: weekday, month, day and year of
the time value read in local time (`LocalTime(tv)` in ECMAScript), the year padded to
four digits. -/
def toDateString {ν : Type} (P : Platform ν) (t : Int) : String :=
  let lt := t + P.localTZA t
  let day := lt / msPerDay
  let civil := civilFromDays day
  let year := civil.1
  weekDayNames.getD ((day + 4) % 7).toNat "" ++ " " ++
    monthNames.getD (civil.2.1 - 1) "" ++ " " ++
    zeroPad 2 civil.2.2 ++ " " ++
    (if year < 0 then "-" else "") ++ zeroPad 4 year.natAbs

/-! ## Documents, collections and responses -/

/-- A `User` document (`userSchema`). -/
structure User where
  _id : ObjectId
  username : String
deriving DecidableEq, Repr

/-- An `Exercise` document (`exerciseSchema`); `date` is a valid time value. -/
structure Exercise (ν : Type) where
  _id : ObjectId
  userId : ObjectId
  description : String
  duration : ν
  date : Int
deriving DecidableEq, Repr

/-- The two collections, each in insertion order. -/
structure Store (ν : Type) where
  users : List User
  exercises : List (Exercise ν)
deriving DecidableEq, Repr

/-- The store before any request. -/
def Store.empty {ν : Type} : Store ν := { users := [], exercises := [] }

/-- Why a call into the store is rejected. -/
inductive StoreError where
  | cast
  | validation
  | duplicateKey
  | badLimit
deriving DecidableEq, Repr

/-- What a handler sends: `res.json(body)` or `res.status(code).send(text)`. -/
inductive Response (α : Type) where
  | json (body : α)
  | status (code : Nat) (text : String)
deriving DecidableEq, Repr

/-- Body of `POST /api/users/:_id/exercises`. -/
structure ExerciseBody (ν : Type) where
  description : Value ν
  duration : Value ν
  date : Value ν
deriving DecidableEq, Repr

/-- Success body of `POST /api/users/:_id/exercises`. -/
structure ExerciseReply (ν : Type) where
  _id : ObjectId
  username : String
  description : String
  duration : ν
  date : String
deriving DecidableEq, Repr

/-- Query string of `GET /api/users/:_id/logs`; each parameter is absent or a string. -/
structure LogQuery where
  «from» : Option String
  «to» : Option String
  limit : Option String
deriving DecidableEq, Repr

/-- One element of `log`. -/
structure LogEntry (ν : Type) where
  description : String
  duration : ν
  date : String
deriving DecidableEq, Repr

/-- Success body of `GET /api/users/:_id/logs`. -/
structure LogReply (ν : Type) where
  _id : ObjectId
  username : String
  count : Nat
  log : List (LogEntry ν)
deriving DecidableEq, Repr

/-! ## JavaScript conversions used by the handlers -/

/-- Truthiness of a body field: `undefined`, the empty string, zero and `NaN` are falsy. -/
def Value.truthy {ν : Type} (P : Platform ν) : Value ν → Bool
  | .undef => false
  | .str s => s != ""
  | .num n => P.truthyNumber n

/-- The constructor `new Date(v)` on a body field. -/
def newDate {ν : Type} (P : Platform ν) : Value ν → JsDate
  | .undef => none
  | .str s => P.dateOfString s
  | .num n => P.dateOfNumber n

/-- Truthiness of a query parameter: absent and empty are falsy. -/
def truthyParam : Option String → Bool
  | none => false
  | some s => s != ""

/-- The constructor `new Date(q)` on a query parameter. -/
def newDateParam {ν : Type} (P : Platform ν) : Option String → JsDate
  | none => none
  | some s => P.dateOfString s

/-! ## Mongoose: casts, validation, queries -/

/-- A `String` path with `required: true`: numbers are cast with `String(n)`,
absent and empty values fail validation. -/
def requiredString {ν : Type} (P : Platform ν) : Value ν → Except StoreError String
  | .undef => .error .validation
  | .str s => if s = "" then .error .validation else .ok s
  | .num n => if P.showNumber n = "" then .error .validation else .ok (P.showNumber n)

/-- A `Number` path with `required: true`: the empty string is cast to `null`,
other strings with `Number(s)`, and `NaN` fails the cast. -/
def requiredNumber {ν : Type} (P : Platform ν) : Value ν → Except StoreError ν
  | .undef => .error .validation
  | .str s =>
    if s = "" then .error .validation
    else match P.toNumber s with
      | none => .error .validation
      | some n => .ok n
  | .num n => .ok n

/-- A `Date` path given a `Date` object: the invalid date fails the cast. -/
def castDate : JsDate → Except StoreError Int
  | none => .error .validation
  | some t => .ok t

/-- The call `User.findById(raw)`: the string is cast to an `ObjectId` (the query is
rejected when the cast fails), then the document with that `_id`, or `null`. -/
def User.findById {ν : Type} (P : Platform ν) (users : List User) (raw : String) :
    Except StoreError (Option User) :=
  match P.castObjectId raw with
  | none => .error .cast
  | some id => .ok (users.find? (fun u => u._id == id))

/-- The call `new User({ username }).save()`, the new document's `_id` being `newId`:
validation, then insertion under the unique index on `_id`. -/
def User.save {ν : Type} (P : Platform ν) (users : List User) (newId : ObjectId)
    (username : Value ν) : Except StoreError (User × List User) :=
  match requiredString P username with
  | .error e => .error e
  | .ok name =>
    if users.any (fun u => u._id == newId) then .error .duplicateKey
    else
      let doc : User := { _id := newId, username := name }
      .ok (doc, users ++ [doc])

/-- The call `User.find({}, '_id username')`. -/
def User.find (users : List User) : List User := users

/-- The call `new Exercise({ userId, description, duration, date }).save()`, the new
document's `_id` being `newId`. -/
def Exercise.save {ν : Type} (P : Platform ν) (exercises : List (Exercise ν))
    (newId userId : ObjectId) (description duration : Value ν) (date : JsDate) :
    Except StoreError (Exercise ν × List (Exercise ν)) :=
  match requiredString P description with
  | .error e => .error e
  | .ok desc =>
    match requiredNumber P duration with
    | .error e => .error e
    | .ok dur =>
      match castDate date with
      | .error e => .error e
      | .ok t =>
        if exercises.any (fun e => e._id == newId) then .error .duplicateKey
        else
          let doc : Exercise ν :=
            { _id := newId, userId := userId, description := desc, duration := dur, date := t }
          .ok (doc, exercises ++ [doc])

/-- The object `filter.date`: the operators `$gte` and `$lte`, each absent or a `Date`. -/
structure DateRange where
  gte : Option JsDate
  lte : Option JsDate
deriving DecidableEq, Repr

/-- The object `filter` of the log route. -/
structure Filter where
  userId : ObjectId
  date : Option DateRange
deriving DecidableEq, Repr

/-- The query built by the log route: `limit` is absent, `NaN` (`some none`) or an integer. -/
structure Query where
  filter : Filter
  limit : Option (Option Int)
deriving DecidableEq, Repr

/-- Cast of one operator of `filter.date`: an invalid date fails the cast. -/
def castBound : Option JsDate → Except StoreError (Option Int)
  | none => .ok none
  | some none => .error .cast
  | some (some t) => .ok (some t)

/-- Whether a document satisfies the cast filter: equal `userId`, `date` not below `lo`
(`$gte`) and not above `hi` (`$lte`). -/
def Exercise.satisfies {ν : Type} (userId : ObjectId) (lo hi : Option Int)
    (e : Exercise ν) : Bool :=
  e.userId == userId &&
    (match lo with
      | none => true
      | some f => decide (f ≤ e.date)) &&
    (match hi with
      | none => true
      | some t => decide (e.date ≤ t))

/-- The cursor's `limit(n)` as the store's manual defines it: `limit(0)` is equivalent to
setting no limit, `1 ≤ n ≤ 2^31` keeps the first `n` documents; a negative `n` depends on
the batch size, the behaviour beyond `2^31` is undefined and `NaN` is no number, so these
are the platform's. -/
def applyLimit {ν α : Type} (P : Platform ν) (limit : Option (Option Int)) (docs : List α) :
    Except StoreError (List α) :=
  match limit with
  | none => .ok docs
  | some n =>
    let outside : Except StoreError (List α) :=
      match P.limitOutside n with
      | none => .error .badLimit
      | some none => .ok docs
      | some (some c) => .ok (docs.take c)
    match n with
    | none => outside
    | some k =>
      if k = 0 then .ok docs
      else if 0 < k ∧ k ≤ 2 ^ 31 then .ok (docs.take k.toNat)
      else outside

/-- The call `query.exec()` of `Exercise.find(filter)` with its optional limit: the
filter is cast, the matching documents are read in natural order, then capped.  The log
route builds `filter.date` with at least one operator, so a `filter.date` without
operator is read like an absent one. -/
def Query.exec {ν : Type} (P : Platform ν) (exercises : List (Exercise ν)) (q : Query) :
    Except StoreError (List (Exercise ν)) :=
  let range : DateRange := q.filter.date.getD { gte := none, lte := none }
  match castBound range.gte with
  | .error e => .error e
  | .ok lo =>
    match castBound range.lte with
    | .error e => .error e
    | .ok hi =>
      applyLimit P q.limit (exercises.filter (Exercise.satisfies q.filter.userId lo hi))

/-! ## The route handlers -/

/-- The handler of `POST /api/users`; `newId` is the `_id` generated for the new document. -/
def createUser {ν : Type} (P : Platform ν) (st : Store ν) (username : Value ν)
    (newId : ObjectId) : Response User × Store ν :=
  match User.save P st.users newId username with
  | .ok (savedUser, users) =>
    (.json { username := savedUser.username, _id := savedUser._id }, { st with users := users })
  | .error _ => (.status 500 "Error creating user", st)

/-- The handler of `GET /api/users`. -/
def listUsers {ν : Type} (st : Store ν) : Response (List User) × Store ν :=
  (.json (User.find st.users), st)

/-- The handler of `POST /api/users/:_id/exercises`; `raw` is `req.params._id`, `newId`
the `_id` generated for the new document and `now` the clock read by `new Date()`. -/
def addExercise {ν : Type} (P : Platform ν) (st : Store ν) (raw : String)
    (body : ExerciseBody ν) (newId : ObjectId) (now : Int) :
    Response (ExerciseReply ν) × Store ν :=
  match User.findById P st.users raw with
  | .error _ => (.status 500 "Error saving exercise", st)
  | .ok none => (.status 404 "User not found", st)
  | .ok (some user) =>
    let date : JsDate := if body.date.truthy P then newDate P body.date else some now
    match Exercise.save P st.exercises newId user._id body.description body.duration date with
    | .error _ => (.status 500 "Error saving exercise", st)
    | .ok (savedExercise, exercises) =>
      (.json
        { _id := user._id
          username := user.username
          description := savedExercise.description
          duration := savedExercise.duration
          date := toDateString P savedExercise.date },
       { st with exercises := exercises })

/-- The element of `log` built from a document. -/
def logEntry {ν : Type} (P : Platform ν) (ex : Exercise ν) : LogEntry ν :=
  { description := ex.description, duration := ex.duration, date := toDateString P ex.date }

/-- The query the log route builds for `user` from `req.query`. -/
def logsQuery {ν : Type} (P : Platform ν) (user : User) (query : LogQuery) : Query :=
  { filter :=
      { userId := user._id
        date :=
          if truthyParam query.«from» || truthyParam query.«to» then
            some
              { gte :=
                  if truthyParam query.«from» then some (newDateParam P query.«from»)
                  else none
                lte :=
                  if truthyParam query.«to» then some (newDateParam P query.«to»)
                  else none }
          else none }
    limit := if truthyParam query.limit then some (query.limit.bind P.parseInt) else none }

/-- The handler of `GET /api/users/:_id/logs`; the store is only read. -/
def getLogs {ν : Type} (P : Platform ν) (st : Store ν) (raw : String) (query : LogQuery) :
    Response (LogReply ν) :=
  match User.findById P st.users raw with
  | .error _ => .status 500 "Error fetching logs"
  | .ok none => .status 404 "User not found"
  | .ok (some user) =>
    match Query.exec P st.exercises (logsQuery P user query) with
    | .error _ => .status 500 "Error fetching logs"
    | .ok exercises =>
      .json
        { _id := user._id
          username := user.username
          count := exercises.length
          log := exercises.map (logEntry P) }

/-- The operator the log route builds from one of `from` and `to`: none when the parameter
is falsy, the date built from it otherwise. -/
def boundOf {ν : Type} (P : Platform ν) (param : Option String) : Option JsDate :=
  if truthyParam param then some (newDateParam P param) else none

/-! ## Sequences of requests -/

/-- A request to one of the four routes, with what the environment supplies to it. -/
inductive Request (ν : Type) where
  | createUser (username : Value ν) (newId : ObjectId)
  | listUsers
  | addExercise (raw : String) (body : ExerciseBody ν) (newId : ObjectId) (now : Int)
  | getLogs (raw : String) (query : LogQuery)

/-- The store after one request. -/
def step {ν : Type} (P : Platform ν) (st : Store ν) : Request ν → Store ν
  | .createUser username newId => (createUser P st username newId).2
  | .listUsers => (listUsers st).2
  | .addExercise raw body newId now => (addExercise P st raw body newId now).2
  | .getLogs _ _ => st

/-- The store after a sequence of requests, served one after the other. -/
def run {ν : Type} (P : Platform ν) (st : Store ν) (reqs : List (Request ν)) : Store ν :=
  reqs.foldl (step P) st

/-- Every exercise refers to a user of the store. -/
def Referential {ν : Type} (st : Store ν) : Prop :=
  ∀ e ∈ st.exercises, ∃ u ∈ st.users, u._id = e.userId

instance {ν : Type} (st : Store ν) : Decidable (Referential st) := by
  unfold Referential
  infer_instance

/-! ## A reference platform

A platform over integer numbers that decides the inputs on which every JavaScript
engine and driver agree: identifiers of 24 hexadecimal digits, numbers and limits
written as at most 15 plain decimal digits, dates written `YYYY-MM-DD` (read as
midnight UTC).  Every other string is refused by it.  It is used at concrete requests
only. -/

/-- Value of a hexadecimal digit. -/
def hexDigit (c : Char) : Option Nat :=
  if '0' ≤ c ∧ c ≤ '9' then some (c.toNat - '0'.toNat)
  else if 'a' ≤ c ∧ c ≤ 'f' then some (c.toNat - 'a'.toNat + 10)
  else if 'A' ≤ c ∧ c ≤ 'F' then some (c.toNat - 'A'.toNat + 10)
  else none

/-- The identifier written by 24 hexadecimal digits. -/
def hexObjectId (s : String) : Option ObjectId :=
  if s.length = 24 then
    s.toList.foldl (fun acc c => acc.bind (fun n => (hexDigit c).map (fun d => 16 * n + d)))
      (some 0)
  else none

/-- The natural number written by one to fifteen decimal digits. -/
def decimal (cs : List Char) : Option Nat :=
  if cs ≠ [] ∧ cs.length ≤ 15 ∧ cs.all Char.isDigit then
    some (cs.foldl (fun n c => 10 * n + (c.toNat - '0'.toNat)) 0)
  else none

/-- Number of days of a month. -/
def daysInMonth (year : Int) (month : Nat) : Nat :=
  if month = 2 then
    if year % 4 = 0 ∧ (year % 100 ≠ 0 ∨ year % 400 = 0) then 29 else 28
  else if month = 4 ∨ month = 6 ∨ month = 9 ∨ month = 11 then 30
  else 31

/-- The time value of a date written `YYYY-MM-DD`: midnight UTC of that day (ECMAScript
reads a date-only form as a UTC time). -/
def isoDateOnly (s : String) : JsDate :=
  match s.toList with
  | [y1, y2, y3, y4, '-', m1, m2, '-', d1, d2] =>
    match decimal [y1, y2, y3, y4], decimal [m1, m2], decimal [d1, d2] with
    | some y, some m, some d =>
      if 1 ≤ m ∧ m ≤ 12 ∧ 1 ≤ d ∧ d ≤ daysInMonth y m then
        some (daysFromCivil y m d * msPerDay)
      else none
    | _, _, _ => none
  | _ => none

/-- The reference platform whose local time is `offset` milliseconds ahead of UTC. -/
def refPlatform (offset : Int) : Platform Int where
  castObjectId := hexObjectId
  toNumber := fun s => (decimal s.toList).map Int.ofNat
  showNumber := fun n => toString n
  truthyNumber := fun n => n != 0
  dateOfString := isoDateOnly
  dateOfNumber := fun n => if n.natAbs ≤ 8640000000000000 then some n else none
  parseInt := fun s => (decimal s.toList).map Int.ofNat
  localTZA := fun _ => offset
  limitOutside := fun _ => none

/-- The reference platform of a server running in UTC. -/
def utc : Platform Int := refPlatform 0

/-- The reference platform of a server running five hours behind UTC. -/
def utcMinus5 : Platform Int := refPlatform (-18000000)

/-! ## Concrete stores used at the examples -/

/-- The route parameter that is cast to the identifier `1`. -/
def annId : String := "000000000000000000000001"

/-- The route parameter that is cast to the identifier `2`. -/
def bobId : String := "000000000000000000000002"

/-- A store with one user and no exercise. -/
def oneUser : Store Int := { users := [{ _id := 1, username := "ann" }], exercises := [] }

/-- A store with one user and three exercises, on 10, 15 and 20 January 2023 (UTC). -/
def threeRuns : Store Int :=
  { users := [{ _id := 1, username := "ann" }]
    exercises :=
      [ { _id := 11, userId := 1, description := "run", duration := 30, date := 1673308800000 },
        { _id := 12, userId := 1, description := "swim", duration := 45, date := 1673740800000 },
        { _id := 13, userId := 1, description := "walk", duration := 60, date := 1674172800000 } ] }

/-! ## Lookup of a user -/

theorem findById_ok {ν : Type} {P : Platform ν} {users : List User} {raw : String} {u : User}
    (h : User.findById P users raw = .ok (some u)) :
    u ∈ users ∧ P.castObjectId raw = some u._id := by
  unfold User.findById at h
  cases hc : P.castObjectId raw with
  | none => simp [hc] at h
  | some id =>
    simp only [hc, Except.ok.injEq] at h
    have hmem := List.mem_of_find?_eq_some h
    have hp := List.find?_some h
    simp only [beq_iff_eq] at hp
    exact ⟨hmem, by rw [hp]⟩

theorem findById_of_mem {ν : Type} {P : Platform ν} {users : List User} {raw : String} {u : User}
    (hu : u ∈ users) (hid : P.castObjectId raw = some u._id) :
    ∃ v, User.findById P users raw = .ok (some v) ∧ v ∈ users ∧ v._id = u._id := by
  unfold User.findById
  simp only [hid]
  cases hf : users.find? (fun x => x._id == u._id) with
  | none =>
    have := List.find?_eq_none.mp hf u hu
    simp at this
  | some v =>
    have hp := List.find?_some hf
    simp only [beq_iff_eq] at hp
    exact ⟨v, rfl, List.mem_of_find?_eq_some hf, hp⟩

theorem findById_unknown {ν : Type} {P : Platform ν} {users : List User} {raw : String}
    {id : ObjectId} (hid : P.castObjectId raw = some id) (h : ∀ u ∈ users, u._id ≠ id) :
    User.findById P users raw = .ok none := by
  unfold User.findById
  simp only [hid]
  congr 1
  apply List.find?_eq_none.mpr
  intro u hu
  simpa using h u hu

theorem findById_malformed {ν : Type} {P : Platform ν} {users : List User} {raw : String}
    (hid : P.castObjectId raw = none) : User.findById P users raw = .error .cast := by
  unfold User.findById
  simp only [hid]

/-! ## Adding an exercise for an identifier that resolves to no user -/

/-- C1, as stated, fails: the route parameter `abc` resolves to no user of the store, it
is not a well-formed identifier, the cast inside `findById` is rejected, and the handler
answers 500 `Error saving exercise`, not 404 `User not found`. -/
theorem addExercise_malformed_id_is_500 :
    (∀ u ∈ oneUser.users, utc.castObjectId "abc" ≠ some u._id) ∧
      (addExercise utc oneUser "abc"
          { description := .str "run", duration := .num 30, date := .undef } 7 0).1 =
        .status 500 "Error saving exercise" ∧
      (addExercise utc oneUser "abc"
          { description := .str "run", duration := .num 30, date := .undef } 7 0).1 ≠
        .status 404 "User not found" := by
  decide

/-- C1, amended: when the route parameter resolves to no user of the store, the store
(so the Exercise collection) is left as it was; the answer is 404 `User not found` when
the parameter is a well-formed identifier and 500 `Error saving exercise` when it is not. -/
theorem addExercise_unknown_user {ν : Type} (P : Platform ν) (st : Store ν) (raw : String)
    (body : ExerciseBody ν) (newId : ObjectId) (now : Int)
    (h : ∀ u ∈ st.users, P.castObjectId raw ≠ some u._id) :
    (addExercise P st raw body newId now).2 = st ∧
      (addExercise P st raw body newId now).2.exercises = st.exercises ∧
      (∀ id, P.castObjectId raw = some id →
        (addExercise P st raw body newId now).1 = .status 404 "User not found") ∧
      (P.castObjectId raw = none →
        (addExercise P st raw body newId now).1 = .status 500 "Error saving exercise") := by
  cases hc : P.castObjectId raw with
  | none =>
    have hf : User.findById P st.users raw = .error .cast := findById_malformed hc
    simp [addExercise, hf]
  | some id =>
    have hf : User.findById P st.users raw = .ok none :=
      findById_unknown hc (fun u hu heq => h u hu (by rw [hc, heq]))
    simp [addExercise, hf]

/-- C1, amended, at concrete requests on a store whose only user has the identifier `1`:
the well-formed identifier `2` is answered 404, the parameter `abc` is answered 500, and
the store is the same after both. -/
theorem addExercise_unknown_user_witness :
    ((∀ u ∈ oneUser.users, utc.castObjectId bobId ≠ some u._id) ∧
      (addExercise utc oneUser bobId
          { description := .str "run", duration := .num 30, date := .undef } 7 0).2 = oneUser ∧
      (addExercise utc oneUser bobId
          { description := .str "run", duration := .num 30, date := .undef } 7 0).1 =
        .status 404 "User not found") ∧
    ((∀ u ∈ oneUser.users, utc.castObjectId "abc" ≠ some u._id) ∧
      (addExercise utc oneUser "abc"
          { description := .str "run", duration := .num 30, date := .undef } 7 0).2 = oneUser ∧
      (addExercise utc oneUser "abc"
          { description := .str "run", duration := .num 30, date := .undef } 7 0).1 =
        .status 500 "Error saving exercise") :=
  have h2 : ∀ u ∈ oneUser.users, utc.castObjectId bobId ≠ some u._id := by decide
  have h3 : ∀ u ∈ oneUser.users, utc.castObjectId "abc" ≠ some u._id := by decide
  have t2 := addExercise_unknown_user utc oneUser bobId
    { description := .str "run", duration := .num 30, date := .undef } 7 0 h2
  have t3 := addExercise_unknown_user utc oneUser "abc"
    { description := .str "run", duration := .num 30, date := .undef } 7 0 h3
  ⟨⟨h2, t2.1, t2.2.2.1 2 (by decide)⟩, ⟨h3, t3.1, t3.2.2.2 (by decide)⟩⟩

/-! ## Required fields of an exercise -/

/-- C7: for an existing user, a request without `description` or without `duration` is
answered 500 `Error saving exercise` and the store (so the Exercise collection) is left
as it was. -/
theorem addExercise_missing_field {ν : Type} (P : Platform ν) (st : Store ν) (raw : String)
    (body : ExerciseBody ν) (newId : ObjectId) (now : Int) (u : User)
    (hu : u ∈ st.users) (hid : P.castObjectId raw = some u._id)
    (hmiss : body.description = .undef ∨ body.duration = .undef) :
    addExercise P st raw body newId now = (.status 500 "Error saving exercise", st) := by
  obtain ⟨v, hf, -, -⟩ := findById_of_mem hu hid
  have hsave : ∀ d, ∃ e,
      Exercise.save P st.exercises newId v._id body.description body.duration d = .error e := by
    intro d
    unfold Exercise.save
    rcases hmiss with hm | hm
    · rw [hm]
      exact ⟨_, rfl⟩
    · rw [hm]
      cases requiredString P body.description with
      | error e => exact ⟨_, rfl⟩
      | ok s => exact ⟨_, rfl⟩
  unfold addExercise
  simp only [hf]
  obtain ⟨e, he⟩ := hsave (if body.date.truthy P then newDate P body.date else some now)
  rw [he]

/-- C7 at concrete requests: one without `description`, one without `duration`. -/
theorem addExercise_missing_field_witness :
    addExercise utc oneUser annId
        { description := .undef, duration := .num 30, date := .str "2023-01-15" } 7 0 =
      (.status 500 "Error saving exercise", oneUser) ∧
    addExercise utc oneUser annId
        { description := .str "run", duration := .undef, date := .undef } 7 0 =
      (.status 500 "Error saving exercise", oneUser) :=
  ⟨addExercise_missing_field utc oneUser annId _ 7 0 { _id := 1, username := "ann" }
      (by decide) (by decide) (Or.inl rfl),
    addExercise_missing_field utc oneUser annId _ 7 0 { _id := 1, username := "ann" }
      (by decide) (by decide) (Or.inr rfl)⟩

/-! ## Not found on the log route -/

/-- C9, as stated, fails: the route parameter `abc` resolves to no user, and the log
route answers 500 `Error fetching logs`, not the not-found failure. -/
theorem getLogs_malformed_id_is_500 :
    (∀ u ∈ oneUser.users, utc.castObjectId "abc" ≠ some u._id) ∧
      getLogs utc oneUser "abc" { «from» := none, «to» := none, limit := none } =
        .status 500 "Error fetching logs" ∧
      ¬ ∃ text, getLogs utc oneUser "abc" { «from» := none, «to» := none, limit := none } =
        .status 404 text := by
  refine ⟨by decide, by decide, ?_⟩
  rintro ⟨text, h⟩
  have h500 : getLogs utc oneUser "abc" { «from» := none, «to» := none, limit := none } =
      .status 500 "Error fetching logs" := by decide
  rw [h500] at h
  simp at h

/-- C9, amended: the log route answers 404 exactly when the route parameter is a
well-formed identifier that no user of the store has, and then with `User not found`; a
parameter that is not a well-formed identifier is answered 500 `Error fetching logs`. -/
theorem getLogs_not_found_iff {ν : Type} (P : Platform ν) (st : Store ν) (raw : String)
    (query : LogQuery) :
    ((∃ text, getLogs P st raw query = .status 404 text) ↔
        ∃ id, P.castObjectId raw = some id ∧ ∀ u ∈ st.users, u._id ≠ id) ∧
      ((∃ id, P.castObjectId raw = some id ∧ ∀ u ∈ st.users, u._id ≠ id) →
        getLogs P st raw query = .status 404 "User not found") ∧
      (P.castObjectId raw = none →
        getLogs P st raw query = .status 500 "Error fetching logs") := by
  have hnf : (∃ id, P.castObjectId raw = some id ∧ ∀ u ∈ st.users, u._id ≠ id) →
      getLogs P st raw query = .status 404 "User not found" := by
    rintro ⟨id, hid, hno⟩
    simp [getLogs, findById_unknown hid hno]
  have hbad : P.castObjectId raw = none →
      getLogs P st raw query = .status 500 "Error fetching logs" := by
    intro hc
    have hf : User.findById P st.users raw = .error .cast := findById_malformed hc
    simp [getLogs, hf]
  refine ⟨⟨?_, fun h => ⟨_, hnf h⟩⟩, hnf, hbad⟩
  rintro ⟨text, h⟩
  cases hc : P.castObjectId raw with
  | none =>
    rw [hbad hc] at h
    simp at h
  | some id =>
    refine ⟨id, rfl, ?_⟩
    intro u hu heq
    have hcu : P.castObjectId raw = some u._id := by rw [hc, heq]
    obtain ⟨v, hf, -, -⟩ := findById_of_mem hu hcu
    unfold getLogs at h
    simp only [hf] at h
    cases hq : Query.exec P st.exercises (logsQuery P v query) with
    | error e => simp [hq] at h
    | ok exs => simp [hq] at h

/-! ## The log route for an existing user -/

theorem logsQuery_range {ν : Type} (P : Platform ν) (user : User) (query : LogQuery) :
    (logsQuery P user query).filter.date.getD { gte := none, lte := none } =
      { gte := boundOf P query.«from», lte := boundOf P query.«to» } := by
  unfold logsQuery boundOf
  cases truthyParam query.«from» <;> cases truthyParam query.«to» <;> rfl

theorem castBound_boundOf {ν : Type} {P : Platform ν} {param : Option String}
    {b : Option Int} (h : castBound (boundOf P param) = .ok b) :
    (b = none ∧ ∀ s, param = some s → s = "") ∨
      ∃ s t, param = some s ∧ s ≠ "" ∧ P.dateOfString s = some t ∧ b = some t := by
  unfold boundOf at h
  cases param with
  | none =>
    simp [truthyParam, castBound] at h
    exact Or.inl ⟨h.symm, by simp⟩
  | some s =>
    by_cases hs : s = ""
    · simp [truthyParam, hs, castBound] at h
      exact Or.inl ⟨h.symm, by simp [hs]⟩
    · cases hd : P.dateOfString s with
      | none => simp [truthyParam, hs, newDateParam, hd, castBound] at h
      | some t =>
        simp [truthyParam, hs, newDateParam, hd, castBound] at h
        exact Or.inr ⟨s, t, rfl, hs, hd, h.symm⟩

theorem castBound_boundOf_ok {ν : Type} {P : Platform ν} {param : Option String}
    (h : ∀ s, param = some s → s ≠ "" → (P.dateOfString s).isSome) :
    ∃ b, castBound (boundOf P param) = .ok b := by
  unfold boundOf
  cases param with
  | none => exact ⟨none, by simp [truthyParam, castBound]⟩
  | some s =>
    by_cases hs : s = ""
    · exact ⟨none, by simp [truthyParam, hs, castBound]⟩
    · have hd := h s rfl hs
      cases hp : P.dateOfString s with
      | none => simp [hp] at hd
      | some t => exact ⟨some t, by simp [truthyParam, hs, newDateParam, hp, castBound]⟩

/-- Without a limit, a successful execution returns the documents that satisfy the cast
filter, in store order. -/
theorem exec_unlimited {ν : Type} {P : Platform ν} {exercises docs : List (Exercise ν)}
    {user : User} {query : LogQuery} (hl : truthyParam query.limit = false)
    (h : Query.exec P exercises (logsQuery P user query) = .ok docs) :
    ∃ lo hi, castBound (boundOf P query.«from») = .ok lo ∧
      castBound (boundOf P query.«to») = .ok hi ∧
      docs = exercises.filter (Exercise.satisfies user._id lo hi) := by
  unfold Query.exec at h
  rw [logsQuery_range] at h
  simp only at h
  cases hlo : castBound (boundOf P query.«from») with
  | error e => simp [hlo] at h
  | ok lo =>
    cases hhi : castBound (boundOf P query.«to») with
    | error e => simp [hlo, hhi] at h
    | ok hi =>
      simp only [hlo, hhi] at h
      have hq : (logsQuery P user query).limit = none := by simp [logsQuery, hl]
      have hu : (logsQuery P user query).filter.userId = user._id := rfl
      rw [hq, hu] at h
      simp only [applyLimit, Except.ok.injEq] at h
      exact ⟨lo, hi, rfl, rfl, h.symm⟩

theorem getLogs_found {ν : Type} {P : Platform ν} {st : Store ν} {raw : String} {user : User}
    (query : LogQuery) (hf : User.findById P st.users raw = .ok (some user)) :
    getLogs P st raw query =
      match Query.exec P st.exercises (logsQuery P user query) with
      | .error _ => .status 500 "Error fetching logs"
      | .ok exercises =>
        .json
          { _id := user._id
            username := user.username
            count := exercises.length
            log := exercises.map (logEntry P) } := by
  unfold getLogs
  simp only [hf]

theorem bound_holds_iff {ν : Type} {P : Platform ν} {param : Option String} {b : Option Int}
    (rel : Int → Prop) [DecidablePred rel] :
    castBound (boundOf P param) = .ok b →
    ((match b with
      | none => true
      | some f => decide (rel f)) = true ↔
      ∀ s, param = some s → s ≠ "" → ∃ f, P.dateOfString s = some f ∧ rel f) := by
  intro h
  rcases castBound_boundOf h with ⟨hb, hempty⟩ | ⟨s, t, hp, hs, hd, hb⟩
  · subst hb
    simp only [true_iff]
    intro s hs hne
    exact absurd (hempty s hs) hne
  · subst hb
    subst hp
    simp only [decide_eq_true_eq]
    constructor
    · intro hr s' hs' _
      cases hs'
      exact ⟨t, hd, hr⟩
    · intro hall
      obtain ⟨f, hf, hr⟩ := hall s rfl hs
      rw [hd] at hf
      cases hf
      exact hr

/-- C2: for an existing user and a log request without a limit, the request is answered
with a log as soon as every bound that is provided is a date, and the log of every
successful answer is built, in store order, from exactly the stored exercises whose
`userId` is the user's identifier and whose date is not before `from` (when `from` is
provided) and not after `to` (when `to` is provided).  A parameter that is absent or
empty is not provided; each bound is applied on its own. -/
theorem getLogs_range_exact {ν : Type} (P : Platform ν) (st : Store ν) (raw : String)
    (query : LogQuery) (u : User) (hu : u ∈ st.users) (hid : P.castObjectId raw = some u._id)
    (hl : query.limit = none) :
    ((∀ s, query.«from» = some s → s ≠ "" → (P.dateOfString s).isSome) →
      (∀ s, query.«to» = some s → s ≠ "" → (P.dateOfString s).isSome) →
      ∃ r, getLogs P st raw query = .json r) ∧
    ∀ r, getLogs P st raw query = .json r →
      ∃ keep : Exercise ν → Bool,
        (∀ e, keep e = true ↔
          (e.userId = u._id ∧
            (∀ s, query.«from» = some s → s ≠ "" → ∃ f, P.dateOfString s = some f ∧ f ≤ e.date) ∧
            (∀ s, query.«to» = some s → s ≠ "" →
              ∃ t, P.dateOfString s = some t ∧ e.date ≤ t))) ∧
        r.log = (st.exercises.filter keep).map (logEntry P) := by
  obtain ⟨v, hf, -, hv⟩ := findById_of_mem hu hid
  have hlim : truthyParam query.limit = false := by rw [hl]; rfl
  have hq : (logsQuery P v query).limit = none := by simp [logsQuery, hlim]
  constructor
  · intro hfrom hto
    obtain ⟨lo, hlo⟩ := castBound_boundOf_ok hfrom
    obtain ⟨hi, hhi⟩ := castBound_boundOf_ok hto
    rw [getLogs_found query hf]
    have hexec : Query.exec P st.exercises (logsQuery P v query) =
        .ok (st.exercises.filter (Exercise.satisfies v._id lo hi)) := by
      unfold Query.exec
      rw [logsQuery_range]
      simp only [hlo, hhi, hq, applyLimit]
      rfl
    rw [hexec]
    exact ⟨_, rfl⟩
  · intro r hr
    rw [getLogs_found query hf] at hr
    cases hexec : Query.exec P st.exercises (logsQuery P v query) with
    | error e => simp [hexec] at hr
    | ok docs =>
      simp only [hexec, Response.json.injEq] at hr
      obtain ⟨lo, hi, hlo, hhi, hdocs⟩ := exec_unlimited hlim hexec
      refine ⟨Exercise.satisfies v._id lo hi, ?_, ?_⟩
      · intro e
        have h1 := bound_holds_iff (fun f => f ≤ e.date) hlo
        have h2 := bound_holds_iff (fun t => e.date ≤ t) hhi
        unfold Exercise.satisfies
        rw [Bool.and_eq_true, Bool.and_eq_true, h1, h2, beq_iff_eq, hv, and_assoc]
      · rw [← hr, hdocs]

/-- C2 at a concrete request: of the three exercises of 10, 15 and 20 January 2023, the
range from 12 January to 20 January keeps the second and the third. -/
theorem getLogs_range_exact_witness :
    getLogs utc threeRuns annId
        { «from» := some "2023-01-12", «to» := some "2023-01-20", limit := none } =
      .json
        { _id := 1, username := "ann", count := 2,
          log :=
            [ { description := "swim", duration := 45, date := "Sun Jan 15 2023" },
              { description := "walk", duration := 60, date := "Fri Jan 20 2023" } ] } ∧
    ∃ keep : Exercise Int → Bool,
      (∀ e, keep e = true ↔
        (e.userId = 1 ∧
          (∀ s, some "2023-01-12" = some s → s ≠ "" →
            ∃ f, utc.dateOfString s = some f ∧ f ≤ e.date) ∧
          (∀ s, some "2023-01-20" = some s → s ≠ "" →
            ∃ t, utc.dateOfString s = some t ∧ e.date ≤ t))) ∧
      ([ { description := "swim", duration := 45, date := "Sun Jan 15 2023" },
         { description := "walk", duration := 60, date := "Fri Jan 20 2023" } ] :
        List (LogEntry Int)) = (threeRuns.exercises.filter keep).map (logEntry utc) :=
  have h : getLogs utc threeRuns annId
        { «from» := some "2023-01-12", «to» := some "2023-01-20", limit := none } =
      .json
        { _id := 1, username := "ann", count := 2,
          log :=
            [ { description := "swim", duration := 45, date := "Sun Jan 15 2023" },
              { description := "walk", duration := 60, date := "Fri Jan 20 2023" } ] } := by
    decide
  ⟨h, (getLogs_range_exact utc threeRuns annId
      { «from» := some "2023-01-12", «to» := some "2023-01-20", limit := none }
      { _id := 1, username := "ann" } (by decide) (by decide) rfl).2 _ h⟩

/-! ## The limit of the log route -/

/-- The execution of a query is the execution without its limit, then the limit. -/
theorem exec_then_limit {ν : Type} (P : Platform ν) (exercises : List (Exercise ν))
    (q : Query) :
    Query.exec P exercises q =
      match Query.exec P exercises { q with limit := none } with
      | .error e => .error e
      | .ok docs => applyLimit P q.limit docs := by
  unfold Query.exec
  simp only
  cases castBound (q.filter.date.getD { gte := none, lte := none }).gte with
  | error e => rfl
  | ok lo =>
    cases castBound (q.filter.date.getD { gte := none, lte := none }).lte with
    | error e => rfl
    | ok hi => rfl

/-- C3, as stated, fails at the limit `0`: the store reads `limit(0)` as no limit, and the
user's single exercise is returned, which is more than `0` entries. -/
theorem getLogs_limit_zero_returns_all :
    utc.parseInt "0" = some 0 ∧
      ∃ r, getLogs utc
          { users := [{ _id := 1, username := "ann" }]
            exercises :=
              [{ _id := 11, userId := 1, description := "run", duration := 30,
                 date := 1673308800000 }] }
          annId { «from» := none, «to» := none, limit := some "0" } = .json r ∧
        r.log.length = 1 ∧ ¬ r.log.length ≤ 0 :=
  ⟨by decide,
    { _id := 1, username := "ann", count := 1,
      log := [{ description := "run", duration := 30, date := "Tue Jan 10 2023" }] },
    by decide, by decide, by decide⟩

/-- C3, amended: when the limit is provided and reads as an integer `n` with
`1 ≤ n ≤ 2^31`, and the same request without the limit is answered with `m` entries (the
exercises of the user that match the date filter), the request is answered with the first
`min n m` of those entries; with `n = 2` and `m > 2`, with exactly two. -/
theorem getLogs_limit_positive {ν : Type} (P : Platform ν) (st : Store ν) (raw : String)
    (query : LogQuery) (s : String) (n : Int) (all : LogReply ν)
    (hs : query.limit = some s) (hne : s ≠ "") (hn : P.parseInt s = some n)
    (hpos : 1 ≤ n) (hmax : n ≤ 2 ^ 31)
    (hall : getLogs P st raw { query with limit := none } = .json all) :
    ∃ r, getLogs P st raw query = .json r ∧
      r.log = all.log.take n.toNat ∧
      r.log.length = min n.toNat all.log.length ∧
      r.log.length ≤ n.toNat ∧
      (n = 2 → 2 < all.log.length → r.log.length = 2) := by
  have key : ∃ r, getLogs P st raw query = .json r ∧ r.log = all.log.take n.toNat := by
    unfold getLogs at hall ⊢
    cases hf : User.findById P st.users raw with
    | error e => simp [hf] at hall
    | ok found =>
      cases found with
      | none => simp [hf] at hall
      | some user =>
        simp only [hf] at hall ⊢
        have hsame : ({ logsQuery P user query with limit := none } : Query) =
            logsQuery P user { query with limit := none } := by
          simp [logsQuery, truthyParam]
        rw [exec_then_limit P st.exercises (logsQuery P user query), hsame]
        cases hexec : Query.exec P st.exercises (logsQuery P user { query with limit := none }) with
        | error e => simp [hexec] at hall
        | ok docs =>
          simp only [hexec, Response.json.injEq] at hall
          have hlimit : (logsQuery P user query).limit = some (some n) := by
            simp [logsQuery, hs, truthyParam, hne, hn]
          have hn0 : n ≠ 0 := by omega
          have hrange : 0 < n ∧ n ≤ 2 ^ 31 := ⟨by omega, hmax⟩
          simp only [hlimit, applyLimit, hn0, hrange, if_false, if_true, and_self]
          refine ⟨_, rfl, ?_⟩
          rw [← hall]
          simp [List.map_take]
  obtain ⟨r, hr, hlog⟩ := key
  refine ⟨r, hr, hlog, ?_, ?_, ?_⟩
  · rw [hlog, List.length_take]
  · rw [hlog, List.length_take]
    exact Nat.min_le_left _ _
  · intro h2 hm
    rw [hlog, List.length_take, h2]
    have : (2 : Int).toNat = 2 := rfl
    omega

/-- C3, amended, at a concrete request: `limit=2` on a user with three exercises is
answered with the first two. -/
theorem getLogs_limit_positive_witness :
    getLogs utc threeRuns annId { «from» := none, «to» := none, limit := none } =
        .json
          { _id := 1, username := "ann", count := 3,
            log :=
              [ { description := "run", duration := 30, date := "Tue Jan 10 2023" },
                { description := "swim", duration := 45, date := "Sun Jan 15 2023" },
                { description := "walk", duration := 60, date := "Fri Jan 20 2023" } ] } ∧
      ∃ r, getLogs utc threeRuns annId { «from» := none, «to» := none, limit := some "2" } =
          .json r ∧
        r.log =
          ([ { description := "run", duration := 30, date := "Tue Jan 10 2023" },
             { description := "swim", duration := 45, date := "Sun Jan 15 2023" },
             { description := "walk", duration := 60, date := "Fri Jan 20 2023" } ] :
            List (LogEntry Int)).take (2 : Int).toNat ∧
        r.log.length = min (2 : Int).toNat 3 ∧
        r.log.length ≤ (2 : Int).toNat ∧
        ((2 : Int) = 2 → 2 < 3 → r.log.length = 2) :=
  ⟨by decide,
    getLogs_limit_positive utc threeRuns annId
      { «from» := none, «to» := none, limit := some "2" } "2" 2
      { _id := 1, username := "ann", count := 3,
        log :=
          [ { description := "run", duration := 30, date := "Tue Jan 10 2023" },
            { description := "swim", duration := 45, date := "Sun Jan 15 2023" },
            { description := "walk", duration := 60, date := "Fri Jan 20 2023" } ] }
      rfl (by decide) (by decide) (by decide) (by decide) (by decide)⟩

/-! ## The count of the log route -/

/-- C4: in every successful answer of the log route, whatever `from`, `to` and `limit`
are, `count` is the length of `log`. -/
theorem getLogs_count_eq_length {ν : Type} (P : Platform ν) (st : Store ν) (raw : String)
    (query : LogQuery) (r : LogReply ν) (h : getLogs P st raw query = .json r) :
    r.count = r.log.length := by
  unfold getLogs at h
  cases hf : User.findById P st.users raw with
  | error e => simp [hf] at h
  | ok found =>
    cases found with
    | none => simp [hf] at h
    | some user =>
      simp only [hf] at h
      cases hexec : Query.exec P st.exercises (logsQuery P user query) with
      | error e => simp [hexec] at h
      | ok docs =>
        simp only [hexec, Response.json.injEq] at h
        rw [← h]
        simp

/-- C4 at a concrete request: the user has three exercises, the range and the limit leave
one, and `count` is `1`. -/
theorem getLogs_count_eq_length_witness :
    getLogs utc threeRuns annId
        { «from» := some "2023-01-12", «to» := none, limit := some "1" } =
      .json
        { _id := 1, username := "ann", count := 1,
          log := [{ description := "swim", duration := 45, date := "Sun Jan 15 2023" }] } ∧
    (1 : Nat) = ([{ description := "swim", duration := 45, date := "Sun Jan 15 2023" }] :
      List (LogEntry Int)).length ∧
    threeRuns.exercises.length = 3 :=
  have h : getLogs utc threeRuns annId
        { «from» := some "2023-01-12", «to» := none, limit := some "1" } =
      .json
        { _id := 1, username := "ann", count := 1,
          log := [{ description := "swim", duration := 45, date := "Sun Jan 15 2023" }] } := by
    decide
  ⟨h, getLogs_count_eq_length utc threeRuns annId _ _ h, rfl⟩

/-! ## What a successful save stores -/

theorem exercise_save_ok {ν : Type} {P : Platform ν} {exercises after : List (Exercise ν)}
    {newId userId : ObjectId} {description duration : Value ν} {date : JsDate}
    {doc : Exercise ν}
    (h : Exercise.save P exercises newId userId description duration date = .ok (doc, after)) :
    requiredString P description = .ok doc.description ∧
      requiredNumber P duration = .ok doc.duration ∧
      date = some doc.date ∧ doc.userId = userId ∧ doc._id = newId ∧
      after = exercises ++ [doc] := by
  unfold Exercise.save at h
  cases hd : requiredString P description with
  | error e => simp [hd] at h
  | ok desc =>
    cases hn : requiredNumber P duration with
    | error e => simp [hd, hn] at h
    | ok dur =>
      cases date with
      | none => simp [hd, hn, castDate] at h
      | some t =>
        by_cases hdup : (exercises.any fun e => e._id == newId) = true
        · simp [hd, hn, castDate, hdup] at h
        · simp only [hd, hn, castDate, hdup] at h
          simp only [Bool.false_eq_true, if_false, Except.ok.injEq, Prod.mk.injEq] at h
          obtain ⟨h1, h2⟩ := h
          subst h1
          exact ⟨rfl, rfl, rfl, rfl, rfl, h2.symm⟩

theorem user_save_ok {ν : Type} {P : Platform ν} {users after : List User} {newId : ObjectId}
    {username : Value ν} {doc : User}
    (h : User.save P users newId username = .ok (doc, after)) :
    requiredString P username = .ok doc.username ∧ doc._id = newId ∧
      (∀ u ∈ users, u._id ≠ newId) ∧ after = users ++ [doc] := by
  unfold User.save at h
  cases hd : requiredString P username with
  | error e => simp [hd] at h
  | ok name =>
    by_cases hdup : (users.any fun u => u._id == newId) = true
    · simp [hd, hdup] at h
    · simp only [hd, hdup] at h
      simp only [Bool.false_eq_true, if_false, Except.ok.injEq, Prod.mk.injEq] at h
      obtain ⟨h1, h2⟩ := h
      subst h1
      refine ⟨rfl, rfl, ?_, h2.symm⟩
      intro u hu heq
      apply hdup
      rw [List.any_eq_true]
      exact ⟨u, hu, by simpa using heq⟩

/-- A successful answer of the exercise route: the user found, the document saved and the
store afterwards. -/
theorem addExercise_ok {ν : Type} {P : Platform ν} {st after : Store ν} {raw : String}
    {body : ExerciseBody ν} {newId : ObjectId} {now : Int} {reply : ExerciseReply ν}
    (h : addExercise P st raw body newId now = (.json reply, after)) :
    ∃ user doc, User.findById P st.users raw = .ok (some user) ∧
      Exercise.save P st.exercises newId user._id body.description body.duration
        (if body.date.truthy P then newDate P body.date else some now) =
          .ok (doc, st.exercises ++ [doc]) ∧
      after = { st with exercises := st.exercises ++ [doc] } ∧
      reply =
        { _id := user._id
          username := user.username
          description := doc.description
          duration := doc.duration
          date := toDateString P doc.date } := by
  unfold addExercise at h
  cases hf : User.findById P st.users raw with
  | error e => simp [hf] at h
  | ok found =>
    cases found with
    | none => simp [hf] at h
    | some user =>
      simp only [hf] at h
      cases hsave : Exercise.save P st.exercises newId user._id body.description body.duration
          (if body.date.truthy P then newDate P body.date else some now) with
      | error e => simp [hsave] at h
      | ok saved =>
        obtain ⟨doc, exs⟩ := saved
        simp only [hsave, Prod.mk.injEq, Response.json.injEq] at h
        obtain ⟨-, -, -, -, -, hexs⟩ := exercise_save_ok hsave
        subst hexs
        exact ⟨user, doc, rfl, hsave, h.2.symm, h.1.symm⟩

/-! ## The collections only grow -/

theorem step_grows {ν : Type} (P : Platform ν) (st : Store ν) (r : Request ν) :
    ∃ us es, (step P st r).users = st.users ++ us ∧
      (step P st r).exercises = st.exercises ++ es := by
  cases r with
  | listUsers => exact ⟨[], [], by simp [step, listUsers], by simp [step, listUsers]⟩
  | getLogs raw query => exact ⟨[], [], by simp [step], by simp [step]⟩
  | createUser username newId =>
    simp only [step, createUser]
    cases hsave : User.save P st.users newId username with
    | error e => exact ⟨[], [], by simp, by simp⟩
    | ok saved =>
      obtain ⟨doc, users⟩ := saved
      obtain ⟨-, -, -, husers⟩ := user_save_ok hsave
      exact ⟨[doc], [], husers, by simp⟩
  | addExercise raw body newId now =>
    simp only [step, addExercise]
    cases hf : User.findById P st.users raw with
    | error e => exact ⟨[], [], by simp, by simp⟩
    | ok found =>
      cases found with
      | none => exact ⟨[], [], by simp, by simp⟩
      | some user =>
        simp only
        cases hsave : Exercise.save P st.exercises newId user._id body.description
            body.duration (if body.date.truthy P then newDate P body.date else some now) with
        | error e => exact ⟨[], [], by simp, by simp⟩
        | ok saved =>
          obtain ⟨doc, exs⟩ := saved
          obtain ⟨-, -, -, -, -, hexs⟩ := exercise_save_ok hsave
          exact ⟨[], [doc], by simp, hexs⟩

theorem run_grows {ν : Type} (P : Platform ν) (reqs : List (Request ν)) :
    ∀ st : Store ν, ∃ us es, (run P st reqs).users = st.users ++ us ∧
      (run P st reqs).exercises = st.exercises ++ es := by
  induction reqs with
  | nil => intro st; exact ⟨[], [], by simp [run], by simp [run]⟩
  | cons r rest ih =>
    intro st
    obtain ⟨us1, es1, hu1, he1⟩ := step_grows P st r
    obtain ⟨us2, es2, hu2, he2⟩ := ih (step P st r)
    refine ⟨us1 ++ us2, es1 ++ es2, ?_, ?_⟩
    · show (run P (step P st r) rest).users = _
      rw [hu2, hu1, List.append_assoc]
    · show (run P (step P st r) rest).exercises = _
      rw [he2, he1, List.append_assoc]

theorem findById_append {ν : Type} {P : Platform ν} {users : List User} {raw : String}
    {v : User} (us : List User) (h : User.findById P users raw = .ok (some v)) :
    User.findById P (users ++ us) raw = .ok (some v) := by
  unfold User.findById at h ⊢
  cases hc : P.castObjectId raw with
  | none => simp [hc] at h
  | some id =>
    simp only [hc, Except.ok.injEq] at h ⊢
    rw [List.find?_append, h]
    rfl

/-! ## Round trip of description and duration -/

/-- C5: when the exercise route accepts a request, the answer carries the description and
the duration of the request (a description sent as the string `s` is `s`, a duration sent
as the number `n` is `n`; a duration sent as a string is the number `Number` reads from
it, a description sent as a number its `String` form), and the log route, asked without
filter for the same user right after the request or after any further requests, answers
with a log that has an entry with that description and that duration. -/
theorem exercise_round_trip {ν : Type} (P : Platform ν) (st after : Store ν) (raw : String)
    (body : ExerciseBody ν) (newId : ObjectId) (now : Int) (reply : ExerciseReply ν)
    (h : addExercise P st raw body newId now = (.json reply, after)) :
    (∀ s, body.description = .str s → reply.description = s) ∧
      (∀ n, body.duration = .num n → reply.duration = n) ∧
      (∀ s, body.duration = .str s → P.toNumber s = some reply.duration) ∧
      (∀ n, body.description = .num n → reply.description = P.showNumber n) ∧
      ∀ later : List (Request ν),
        ∃ r, getLogs P (run P after later) raw { «from» := none, «to» := none, limit := none } =
            .json r ∧
          ∃ e ∈ r.log, e.description = reply.description ∧ e.duration = reply.duration := by
  obtain ⟨user, doc, hf, hsave, hafter, hreply⟩ := addExercise_ok h
  obtain ⟨hdesc, hdur, -, huid, -, -⟩ := exercise_save_ok hsave
  subst hreply
  refine ⟨?_, ?_, ?_, ?_, ?_⟩
  · intro s hs
    rw [hs] at hdesc
    unfold requiredString at hdesc
    by_cases he : s = ""
    · simp [he] at hdesc
    · simpa [he] using hdesc.symm
  · intro n hn
    rw [hn] at hdur
    simpa [requiredNumber] using hdur.symm
  · intro s hs
    rw [hs] at hdur
    unfold requiredNumber at hdur
    by_cases he : s = ""
    · simp [he] at hdur
    · cases hp : P.toNumber s with
      | none => simp [he, hp] at hdur
      | some n => simpa [he, hp] using hdur
  · intro n hn
    rw [hn] at hdesc
    unfold requiredString at hdesc
    by_cases he : P.showNumber n = ""
    · simp [he] at hdesc
    · simpa [he] using hdesc.symm
  · intro later
    obtain ⟨us, es, hus, hes⟩ := run_grows P later after
    have hf2 : User.findById P (run P after later).users raw = .ok (some user) := by
      rw [hus, hafter]
      exact findById_append us hf
    rw [getLogs_found _ hf2]
    have hexec : Query.exec P (run P after later).exercises
        (logsQuery P user { «from» := none, «to» := none, limit := none }) =
        .ok ((run P after later).exercises.filter (Exercise.satisfies user._id none none)) := rfl
    rw [hexec]
    refine ⟨_, rfl, logEntry P doc, ?_, rfl, rfl⟩
    apply List.mem_map_of_mem
    rw [List.mem_filter, hes, hafter]
    refine ⟨by simp, ?_⟩
    simp [Exercise.satisfies, huid]

/-- C5 at a concrete request: the form sends the duration as the string `30`. -/
theorem exercise_round_trip_witness :
    addExercise utc oneUser annId
        { description := .str "run", duration := .str "30", date := .undef } 7 1673740800000 =
      (.json
        { _id := 1, username := "ann", description := "run", duration := 30,
          date := "Sun Jan 15 2023" },
       { users := [{ _id := 1, username := "ann" }]
         exercises :=
           [{ _id := 7, userId := 1, description := "run", duration := 30,
              date := 1673740800000 }] }) ∧
    ((∀ s, (Value.str "run" : Value Int) = .str s → "run" = s) ∧
      (∀ n, (Value.str "30" : Value Int) = .num n → (30 : Int) = n) ∧
      (∀ s, (Value.str "30" : Value Int) = .str s → utc.toNumber s = some 30) ∧
      (∀ n, (Value.str "run" : Value Int) = .num n → "run" = utc.showNumber n) ∧
      ∀ later : List (Request Int),
        ∃ r, getLogs utc
            (run utc
              { users := [{ _id := 1, username := "ann" }]
                exercises :=
                  [{ _id := 7, userId := 1, description := "run", duration := 30,
                     date := 1673740800000 }] }
              later)
            annId { «from» := none, «to» := none, limit := none } = .json r ∧
          ∃ e ∈ r.log, e.description = "run" ∧ e.duration = 30) :=
  have h : addExercise utc oneUser annId
        { description := .str "run", duration := .str "30", date := .undef } 7 1673740800000 =
      (.json
        { _id := 1, username := "ann", description := "run", duration := 30,
          date := "Sun Jan 15 2023" },
       { users := [{ _id := 1, username := "ann" }]
         exercises :=
           [{ _id := 7, userId := 1, description := "run", duration := 30,
              date := 1673740800000 }] }) := by decide
  ⟨h, exercise_round_trip utc oneUser _ annId _ 7 1673740800000 _ h⟩

/-! ## Creating and listing users -/

/-- C6: when `POST /api/users` succeeds, the `_id` of its answer is the one generated for
the new document and is held by no user that was in the store before, a username sent as
a string is answered unchanged, and `GET /api/users`, right after the request or after
any further requests, lists the answered `_id` and `username` and every user that was
listed before. -/
theorem createUser_then_listUsers {ν : Type} (P : Platform ν) (st after : Store ν)
    (username : Value ν) (newId : ObjectId) (reply : User)
    (h : createUser P st username newId = (.json reply, after)) :
    reply._id = newId ∧
      (∀ u ∈ st.users, u._id ≠ reply._id) ∧
      (∀ s, username = .str s → reply.username = s) ∧
      ∀ later : List (Request ν),
        ∃ listed, (listUsers (run P after later)).1 = .json listed ∧
          reply ∈ listed ∧
          ∀ before, (listUsers st).1 = .json before → ∀ u ∈ before, u ∈ listed := by
  unfold createUser at h
  cases hsave : User.save P st.users newId username with
  | error e => simp [hsave] at h
  | ok saved =>
    obtain ⟨doc, users⟩ := saved
    simp only [hsave, Prod.mk.injEq, Response.json.injEq] at h
    obtain ⟨hname, hid, hfresh, husers⟩ := user_save_ok hsave
    obtain ⟨hreply, hafter⟩ := h
    have hdoc : reply = doc := by rw [← hreply]
    subst hdoc
    refine ⟨hid, ?_, ?_, ?_⟩
    · intro u hu
      rw [hid]
      exact hfresh u hu
    · intro s hs
      rw [hs] at hname
      unfold requiredString at hname
      by_cases he : s = ""
      · simp [he] at hname
      · simpa [he] using hname.symm
    · intro later
      obtain ⟨us, es, hus, -⟩ := run_grows P later after
      have hall : (run P after later).users = (st.users ++ [reply]) ++ us := by
        rw [hus, ← hafter, husers]
      refine ⟨(run P after later).users, rfl, ?_, ?_⟩
      · rw [hall]
        simp
      · intro before hb u hu
        simp only [listUsers, User.find, Response.json.injEq] at hb
        rw [hall, List.append_assoc]
        exact List.mem_append_left _ (hb ▸ hu)

/-- C6 at a concrete request: a second user is registered and listed after the first. -/
theorem createUser_then_listUsers_witness :
    createUser utc oneUser (.str "bob") 2 =
      (.json { _id := 2, username := "bob" },
       { users := [{ _id := 1, username := "ann" }, { _id := 2, username := "bob" }]
         exercises := [] }) ∧
    ((2 : ObjectId) = 2 ∧
      (∀ u ∈ oneUser.users, u._id ≠ 2) ∧
      (∀ s, (Value.str "bob" : Value Int) = .str s → "bob" = s) ∧
      ∀ later : List (Request Int),
        ∃ listed,
          (listUsers
              (run utc
                { users := [{ _id := 1, username := "ann" }, { _id := 2, username := "bob" }]
                  exercises := [] }
                later)).1 = .json listed ∧
          ({ _id := 2, username := "bob" } : User) ∈ listed ∧
          ∀ before, (listUsers oneUser).1 = .json before → ∀ u ∈ before, u ∈ listed) :=
  have h : createUser utc oneUser (.str "bob") 2 =
      (.json { _id := 2, username := "bob" },
       { users := [{ _id := 1, username := "ann" }, { _id := 2, username := "bob" }]
         exercises := [] }) := by decide
  ⟨h, createUser_then_listUsers utc oneUser _ (.str "bob") 2 _ h⟩

/-! ## The date of an exercise -/

/-- What an accepted request stores as date and answers as date: the date built from the
`date` field when the field is truthy, the clock otherwise, and the `toDateString` of the
stored time value. -/
theorem addExercise_date {ν : Type} {P : Platform ν} {st after : Store ν} {raw : String}
    {body : ExerciseBody ν} {newId : ObjectId} {now : Int} {reply : ExerciseReply ν}
    (h : addExercise P st raw body newId now = (.json reply, after)) :
    ∃ doc, after.exercises = st.exercises ++ [doc] ∧
      reply.date = toDateString P doc.date ∧
      (body.date.truthy P = true → newDate P body.date = some doc.date) ∧
      (body.date.truthy P = false → doc.date = now) := by
  obtain ⟨user, doc, -, hsave, hafter, hreply⟩ := addExercise_ok h
  obtain ⟨-, -, hdate, -, -, -⟩ := exercise_save_ok hsave
  refine ⟨doc, by rw [hafter], by rw [hreply], ?_, ?_⟩
  · intro ht
    simpa [ht] using hdate
  · intro ht
    simpa [ht] using hdate.symm

/-- C8, the request where the code departs from the claim: on a server whose local time is
five hours behind UTC, `date=2023-01-15` is stored as midnight UTC of 15 January 2023 and
answered as `Sat Jan 14 2023`, the day before; the same request on a server in UTC is
answered as `Sun Jan 15 2023`. -/
theorem addExercise_date_echoed_a_day_early :
    utcMinus5.dateOfString "2023-01-15" = some (daysFromCivil 2023 1 15 * msPerDay) ∧
      addExercise utcMinus5 oneUser annId
          { description := .str "run", duration := .num 30, date := .str "2023-01-15" }
          7 1700000000000 =
        (.json
          { _id := 1, username := "ann", description := "run", duration := 30,
            date := "Sat Jan 14 2023" },
         { users := [{ _id := 1, username := "ann" }]
           exercises :=
             [{ _id := 7, userId := 1, description := "run", duration := 30,
                date := 1673740800000 }] }) ∧
      (addExercise utc oneUser annId
          { description := .str "run", duration := .num 30, date := .str "2023-01-15" }
          7 1700000000000).1 =
        .json
          { _id := 1, username := "ann", description := "run", duration := 30,
            date := "Sun Jan 15 2023" } := by
  decide

/-! ## The referential invariant -/

theorem step_referential {ν : Type} (P : Platform ν) (st : Store ν) (r : Request ν)
    (h : Referential st) : Referential (step P st r) := by
  cases r with
  | listUsers => exact h
  | getLogs raw query => exact h
  | createUser username newId =>
    simp only [step, createUser]
    cases hsave : User.save P st.users newId username with
    | error e => exact h
    | ok saved =>
      obtain ⟨doc, users⟩ := saved
      obtain ⟨-, -, -, husers⟩ := user_save_ok hsave
      intro e he
      obtain ⟨u, hu, hid⟩ := h e he
      refine ⟨u, ?_, hid⟩
      show u ∈ users
      rw [husers]
      exact List.mem_append_left _ hu
  | addExercise raw body newId now =>
    simp only [step, addExercise]
    cases hf : User.findById P st.users raw with
    | error e => exact h
    | ok found =>
      cases found with
      | none => exact h
      | some user =>
        simp only
        cases hsave : Exercise.save P st.exercises newId user._id body.description
            body.duration (if body.date.truthy P then newDate P body.date else some now) with
        | error e => exact h
        | ok saved =>
          obtain ⟨doc, exs⟩ := saved
          obtain ⟨-, -, -, huid, -, hexs⟩ := exercise_save_ok hsave
          intro e he
          have he2 : e ∈ st.exercises ++ [doc] := by rw [← hexs]; exact he
          rw [List.mem_append, List.mem_singleton] at he2
          rcases he2 with hold | hnew
          · exact h e hold
          · exact ⟨user, (findById_ok hf).1, by rw [hnew, huid]⟩

theorem run_referential {ν : Type} (P : Platform ν) (reqs : List (Request ν)) :
    ∀ st : Store ν, Referential st → Referential (run P st reqs) := by
  induction reqs with
  | nil => intro st h; exact h
  | cons r rest ih =>
    intro st h
    exact ih (step P st r) (step_referential P st r h)

/-- C10: after any sequence of requests to the four routes, started from the empty store,
every stored exercise has the `userId` of a user of the store; and each single request
keeps that property of the store. -/
theorem referential_invariant {ν : Type} (P : Platform ν) (reqs : List (Request ν)) :
    Referential (run P Store.empty reqs) ∧
      ∀ (st : Store ν) (r : Request ν), Referential st → Referential (step P st r) := by
  refine ⟨run_referential P reqs Store.empty ?_, fun st r h => step_referential P st r h⟩
  intro e he
  simp [Store.empty] at he

end ExerciseTracker
